import Mathlib

/-!
Verification of the Buffer-Onefile workflow automation engine.

The Python sources (`Vesion1.py`, `version2.py`) drive a headless browser
through a fixed multi-step posting workflow.  This file gives a shallow
embedding of the control-flow and data-handling logic of the engine:
browser interactions are abstracted into oracle environments (records of
Booleans telling which waits resolve, which actions raise, which probes
succeed), and each modelled function returns the value the Python function
returns together with, where ordering matters, an explicit event trace.
-/

set_option autoImplicit false

namespace BufferOnefile

/-! ## Cookie-domain normalization (`load_cookies`, both scripts)

The per-cookie domain rewrite in `load_cookies` (version2.py lines 98-109,
Vesion1.py lines 72-83):
if the domain is `publish.buffer.com` it becomes `.buffer.com`; otherwise
a leading dot is stripped; otherwise `www.buffer.com` becomes
`.buffer.com`; any other domain is left unchanged. -/
/-- Python's `cookie_domain.startswith('.')`. -/
def leadingDot (d : String) : Bool :=
  d.data.head? = some '.'

/-- The Python slice `cookie_domain[1:]`: drop the first character. -/
def dropLead (d : String) : String :=
  String.mk (d.data.drop 1)

def normalize_domain (d : String) : String :=
  if d = "publish.buffer.com" then ".buffer.com"
  else if leadingDot d then dropLead d
  else if d = "www.buffer.com" then ".buffer.com"
  else d

/-! ## Locator resolution (`click_new_post` and sibling step bodies)

Each step body runs `for selector in selectors: try: elem = wait(selector);
break; except: continue`, i.e. it returns the first candidate that resolves
within its own timeout and gives up only after every candidate failed.
The oracle `res c` says whether candidate `c` resolves within its timeout
against the current DOM. -/
def resolveFirst {α : Type} (res : α → Bool) : List α → Option α
  | [] => none
  | c :: rest => if res c then some c else resolveFirst res rest

/-! ## Cookie restore (`load_cookies`, version2.py lines 79-123)

A stored cookie is a record; only the optional `domain` field matters to
the control flow (the per-cookie rewrite touches nothing else).  `name`
stands for the rest of the record. -/
structure Cookie where
  name : String
  domain : Option String
  deriving DecidableEq, Repr

/-- The domain rewrite applied to one cookie before `driver.add_cookie`:
when the record has a `domain` field it is normalized, otherwise the
cookie is passed through untouched. -/
def normCookie (c : Cookie) : Cookie :=
  { c with domain := c.domain.map normalize_domain }

/-- One iteration of the cookie loop: `driver.add_cookie` on the rewritten
cookie; on an exception the cookie is skipped and counted, otherwise it is
injected.  `addFails` is the oracle saying whether `add_cookie` raises on
the (already rewritten) cookie.  The accumulator carries
(skipped count, injected cookies in order). -/
def cookieStep (addFails : Cookie → Bool) (acc : Nat × List Cookie) (c : Cookie) :
    Nat × List Cookie :=
  let c' := normCookie c
  if addFails c' then (acc.1 + 1, acc.2) else (acc.1, acc.2 ++ [c'])

/-- Model of `load_cookies`.  Returns `(result, skipped, injected)`.
`fileExists` models `os.path.exists(COOKIE_FILE)`; `navOk` models the
initial `driver.get("https://buffer.com")` together with the unpickling
not raising (either raising lands in the outer `except` which returns
`False`).  When the preliminaries succeed, every cookie is attempted
individually and the function returns `True` unconditionally. -/
def load_cookies (fileExists navOk : Bool) (cookies : List Cookie)
    (addFails : Cookie → Bool) : Bool × Nat × List Cookie :=
  if ¬ fileExists then (false, 0, [])
  else if ¬ navOk then (false, 0, [])
  else
    let r := cookies.foldl (cookieStep addFails) (0, [])
    (true, r.1, r.2)

/-! ## Session establishment (`establish_session`, version2.py lines 326-346,
Vesion1.py lines 301-321; both scripts have identical control flow here)

Oracle fields: `probe1` is the initial `check_session_validity`, `loadOk`
the Boolean result of `load_cookies`, `probe2` the re-probe after a
successful restore, `hasCreds` whether both EMAIL and PASSWORD are set,
`loginOk` the result of `login_with_credentials`. -/
structure SessEnv where
  probe1 : Bool
  loadOk : Bool
  probe2 : Bool
  hasCreds : Bool
  loginOk : Bool
  deriving DecidableEq, Repr

/-- Observable phases of `establish_session`, in execution order. -/
inductive SEv where
  | probe (n : Nat)
  | loadCookies
  | login
  deriving DecidableEq, Repr

/-- Result of `establish_session`: `ok b` for `return b`, `err` for the
`ValueError` raised when credentials are missing. -/
inductive SessResult where
  | ok (b : Bool)
  | err
  deriving DecidableEq, Repr

/-- The credential tail of `establish_session`: the missing-credential
check then `login_with_credentials`. -/
def credentialTail (e : SessEnv) (pre : List SEv) : List SEv × SessResult :=
  if ¬ e.hasCreds then (pre, SessResult.err)
  else if e.loginOk then (pre ++ [SEv.login], SessResult.ok true)
  else (pre ++ [SEv.login], SessResult.ok false)

/-- Model of `establish_session`: probe, then cookie restore plus re-probe, then
credential login, each phase entered only when the previous ones failed. -/
def establish_session (e : SessEnv) : List SEv × SessResult :=
  if e.probe1 then ([SEv.probe 0], SessResult.ok true)
  else if e.loadOk then
    if e.probe2 then ([SEv.probe 0, SEv.loadCookies, SEv.probe 1], SessResult.ok true)
    else credentialTail e [SEv.probe 0, SEv.loadCookies, SEv.probe 1]
  else credentialTail e [SEv.probe 0, SEv.loadCookies]

/-! ## Step bodies `click_new_post` and `upload_video` (version2.py)

`click_new_post` (lines 348-399): navigate, resolve the New Post button
through five candidate selectors (first clickable within 3s wins), click,
then wait 5s for the composer dialog; both the confirmed and unconfirmed
branch return `True`.  Any exception from navigation or the click lands in
the outer `except`, returning `None`; so does exhausting the selectors. -/
structure NewPostEnv where
  navOk : Bool
  sel : Nat → Bool
  clickOk : Bool
  dialogConfirmed : Bool

/-- Indices of the five New Post selectors, in declared order. -/
def newPostSelectors : List Nat := [0, 1, 2, 3, 4]

/-- Model of `click_new_post`.  `e.dialogConfirmed` only selects which message is
printed after the click: the function returns `True` either way. -/
def click_new_post (e : NewPostEnv) : Option Bool :=
  if ¬ e.navOk then none
  else
    match resolveFirst e.sel newPostSelectors with
    | none => none
    | some _ => if ¬ e.clickOk then none else some true

/-- Model of `upload_video` (version2.py lines 401-454): write the bytes to a temp
file, locate the hidden file input, `send_keys` the path, then try two
60-second confirmation waits; both confirmation failures fall through to
`return True`.  Exceptions from the earlier phases reach the outer
`except` and return `None`. -/
structure UploadEnv where
  tempOk : Bool
  inputFound : Bool
  sendOk : Bool
  progressGone : Bool
  previewFound : Bool

def upload_video (e : UploadEnv) : Option Bool :=
  if ¬ e.tempOk then none
  else if ¬ e.inputFound then none
  else if ¬ e.sendOk then none
  else some true

/-! ## Submission controller (`submit_post`, version2.py lines 725-832,
with `dismiss_overlays`, lines 677-723)

Oracle fields, all indexed by attempt number (1-based):
`pres a s` — selector `s` of the seven Share-button selectors resolves
(presence, 5s) on attempt `a`; `usable a s` — that element is displayed
and enabled; `raises a m` — click method `m` (0 direct, 1 JavaScript,
2 ActionChains, 3 scroll-then-click) raises on attempt `a`;
`confirmed a` — the post-submission signal (URL back at the dashboard, or
a confirmation message) is observed within 10s. -/
structure SubmitEnv where
  pres : Nat → Nat → Bool
  usable : Nat → Nat → Bool
  raises : Nat → Nat → Bool
  confirmed : Nat → Bool

/-- Observable events of one `submit_post` run. -/
inductive SubEv where
  | dismiss (attempt : Nat)
  | click (attempt method : Nat)
  | confirm (attempt : Nat) (observed : Bool)
  deriving DecidableEq, Repr

def attemptOf : SubEv → Nat
  | SubEv.dismiss a => a
  | SubEv.click a _ => a
  | SubEv.confirm a _ => a

/-- Indices of the seven Share/Post-button selectors, in declared order. -/
def shareSelectors : List Nat := [0, 1, 2, 3, 4, 5, 6]

/-- Indices of the four click methods, in declared order. -/
def clickMethods : List Nat := [0, 1, 2, 3]

/-- The Share-button selector loop: `share_button` starts as `None`; each
selector that resolves overwrites it, and the loop breaks early at the
first one that is also displayed and enabled.  The Python truthiness test
`if not share_button` therefore fails (a button is used) as soon as any
selector ever resolved, even a non-usable one — the accumulator below
records the most recent resolved selector. -/
def findButtonGo (pres usable : Nat → Bool) : Option Nat → List Nat → Option Nat
  | acc, [] => acc
  | acc, s :: rest =>
    if pres s then
      if usable s then some s else findButtonGo pres usable (some s) rest
    else findButtonGo pres usable acc rest

def findButton (pres usable : Nat → Bool) : Option Nat :=
  findButtonGo pres usable none shareSelectors

/-- The click-method loop of one attempt: each raising method is tried and
skipped; the first non-raising method is followed by the confirmation
wait, and the function returns `True` whether or not the signal was
observed (`return True` in both branches of the inner `try`). -/
def tryMethodsGo (e : SubmitEnv) (a : Nat) : List Nat → List SubEv × Option Bool
  | [] => ([], none)
  | m :: rest =>
    if e.raises a m then
      let r := tryMethodsGo e a rest
      (SubEv.click a m :: r.1, r.2)
    else ([SubEv.click a m, SubEv.confirm a (e.confirmed a)], some true)

/-- The tail of `submit_post` starting at attempt `a`, with `fuel`
attempts remaining (the Python loop is `for attempt in range(1, 4)`).
On attempts after the first, `dismiss_overlays` runs before anything
else; a failed attempt that is not the last runs `dismiss_overlays`
again before continuing (line 819) when the methods were exhausted, or
just sleeps (line 765) when the button was never resolved.
The overlay-dismissal pass that opens every attempt after the first is
`dismissPre` (`if attempt > 1: dismiss_overlays(driver)`). -/
def dismissPre (a : Nat) : List SubEv :=
  if 1 < a then [SubEv.dismiss a] else []

def submitGo (e : SubmitEnv) : Nat → Nat → List SubEv × Option Bool
  | _, 0 => ([], none)
  | a, fuel + 1 =>
    let pre := dismissPre a
    match findButton (e.pres a) (e.usable a) with
    | none =>
      if fuel = 0 then (pre, none)
      else
        let r := submitGo e (a + 1) fuel
        (pre ++ r.1, r.2)
    | some _ =>
      let c := tryMethodsGo e a clickMethods
      match c.2 with
      | some b => (pre ++ c.1, some b)
      | none =>
        if fuel = 0 then (pre ++ c.1, none)
        else
          let r := submitGo e (a + 1) fuel
          (pre ++ c.1 ++ [SubEv.dismiss a] ++ r.1, r.2)

def submit_post (e : SubmitEnv) : List SubEv × Option Bool :=
  submitGo e 1 3

/-- The click events of attempt `b` in a trace, as the list of method
indices in trace order. -/
def clicksOf (b : Nat) (t : List SubEv) : List Nat :=
  t.filterMap fun ev =>
    match ev with
    | SubEv.click a m => if a = b then some m else none
    | _ => none

/-- The method indices one pass of the click loop tries, given which
methods raise: every raising method in order, then the first non-raising
one, at which the loop stops. -/
def methodTrials (r : Nat → Bool) : List Nat → List Nat
  | [] => []
  | m :: rest => if r m then m :: methodTrials r rest else [m]

/-! ## Evidence composition (`combine_screenshots`, version2.py
lines 834-886)

An image is its pixel size; a snapshot byte string either decodes to an
image or fails to open (the per-image `try` skips it).  The composed
output is the canvas size together with the paste offsets in paste
order. -/
structure Img where
  width : Nat
  height : Nat
  deriving DecidableEq, Repr

structure GridImage where
  width : Nat
  height : Nat
  placements : List (Nat × Nat × Img)
  deriving DecidableEq, Repr

/-- Model of `combine_screenshots`: `None` on an empty input list and when no
entry decodes; otherwise a 2-column grid with `(n + 2 - 1) / 2` rows
(integer division, i.e. `ceil(n / 2)`), canvas sized from the first
image, entry `i` pasted at `((i % 2) * w, (i / 2) * h)`. -/
def combine_screenshots (shots : List (Option Img)) : Option GridImage :=
  if shots = [] then none
  else
    match shots.filterMap id with
    | [] => none
    | im0 :: rest =>
      let images := im0 :: rest
      let cols := 2
      let rows := (images.length + cols - 1) / cols
      let w := im0.width
      let h := im0.height
      some { width := cols * w
             height := rows * h
             placements :=
               images.enum.map fun p => ((p.1 % cols) * w, (p.1 / cols) * h, p.2) }

/-! ## Workflow run (`process_media_file`, version2.py lines 888-1010)

The nine step bodies all return `True` on success and `None` on failure,
so the outcome of a step is one Boolean (`stepOk i`); `shotOk i` says whether
`take_screenshot` after step `i` returned bytes (`None` on an exception,
in which case nothing is appended to the evidence list); `est n` is the
Boolean outcome of the `n`-th `establish_session` call; `driverLive`
says whether the module-level driver already exists on entry. -/
structure RunEnv where
  driverLive : Bool
  est : Nat → Bool
  stepOk : Nat → Bool
  shotOk : Nat → Bool

/-- Observable events of one `process_media_file` run.  `failMsg i` is
the step-naming failure message printed just before the early
`return None`. -/
inductive REv where
  | setup
  | establish (n : Nat)
  | cleanup
  | step (i : Nat)
  | failMsg (i : Nat)
  | shot (i : Nat)
  deriving DecidableEq, Repr

/-- The step indices in declared order: 0 `click_new_post`,
1 `upload_video`, 2 `type_content`, 3 `click_customize_button`,
4 `click_second_text_area`, 5 `fill_reels_input`,
6 `click_section_button`, 7 `click_list_item`, 8 `submit_post`. -/
def workflowSteps : List Nat := [0, 1, 2, 3, 4, 5, 6, 7, 8]

/-- The step ladder: each step either returns `True` (screenshot taken,
appended when capture succeeded, continue) or `None` (print the
step-naming message and return `None` at once).  The second component is
the evidence list, identified by step index. -/
def stepsGo (e : RunEnv) : List Nat → List REv × Option (List Nat)
  | [] => ([], some [])
  | i :: rest =>
    if e.stepOk i then
      let r := stepsGo e rest
      (REv.step i :: REv.shot i :: r.1,
       r.2.map fun l => if e.shotOk i then i :: l else l)
    else ([REv.step i, REv.failMsg i], none)

/-- Model of `process_media_file`: ensure a driver exists, establish a session
(on failure: discard the driver, start a fresh one, retry once; a second
failure returns `None` before any step), then run the step ladder. -/
def process_media_file (e : RunEnv) : List REv × Option (List Nat) :=
  let pre := if e.driverLive then [] else [REv.setup]
  if e.est 0 then
    let r := stepsGo e workflowSteps
    (pre ++ [REv.establish 0] ++ r.1, r.2)
  else if e.est 1 then
    let r := stepsGo e workflowSteps
    (pre ++ [REv.establish 0, REv.cleanup, REv.setup, REv.establish 1] ++ r.1, r.2)
  else
    (pre ++ [REv.establish 0, REv.cleanup, REv.setup, REv.establish 1], none)

/-! ## Helper lemmas -/

lemma resolveFirst_some {α : Type} (res : α → Bool) (cs : List α) (c : α)
    (h : resolveFirst res cs = some c) :
    res c = true ∧ ∃ l1 l2, cs = l1 ++ c :: l2 ∧ ∀ x ∈ l1, res x = false := by
  induction cs with
  | nil => simp [resolveFirst] at h
  | cons hd tl ih =>
    by_cases hres : res hd
    · rw [resolveFirst, if_pos hres] at h
      obtain rfl : hd = c := by injection h
      exact ⟨hres, [], tl, rfl, by simp⟩
    · rw [resolveFirst, if_neg hres] at h
      obtain ⟨hc, l1, l2, heq, hall⟩ := ih h
      refine ⟨hc, hd :: l1, l2, by simp [heq], ?_⟩
      intro x hx
      rcases List.mem_cons.mp hx with rfl | hx
      · exact Bool.not_eq_true _ ▸ (by simpa using hres)
      · exact hall x hx

lemma resolveFirst_none {α : Type} (res : α → Bool) (cs : List α) :
    resolveFirst res cs = none ↔ ∀ x ∈ cs, res x = false := by
  induction cs with
  | nil => simp [resolveFirst]
  | cons hd tl ih =>
    by_cases hres : res hd
    · simp [resolveFirst, hres]
    · simp [resolveFirst, hres, ih, Bool.not_eq_true] at *

lemma cookieFold (f : Cookie → Bool) (cs : List Cookie) (k : Nat) (acc : List Cookie) :
    cs.foldl (cookieStep f) (k, acc) =
      (k + (cs.filter fun c => f (normCookie c)).length,
       acc ++ (cs.filter fun c => f (normCookie c) = false).map normCookie) := by
  induction cs generalizing k acc with
  | nil => simp
  | cons hd tl ih =>
    by_cases h : f (normCookie hd)
    · simp [cookieStep, h, ih, Nat.add_assoc, Nat.add_comm 1]
    · simp [cookieStep, h, ih]

/-! ## Claim theorems: locator resolver, cookie handling, session order -/

/-- C2: the resolver tries candidates strictly in declared order, returns
the element found by the first resolvable candidate (every earlier
candidate fails), and reports not-found exactly when every candidate in
the list has been tried and failed. -/
theorem C2_locator_first_match {α : Type} (res : α → Bool) (cs : List α) :
    (∀ c, resolveFirst res cs = some c →
      res c = true ∧ ∃ l1 l2, cs = l1 ++ c :: l2 ∧ ∀ x ∈ l1, res x = false)
    ∧ (resolveFirst res cs = none ↔ ∀ x ∈ cs, res x = false) :=
  ⟨fun c h => resolveFirst_some res cs c h, resolveFirst_none res cs⟩

theorem C2_locator_first_match_witness :
    (fun n : Nat => decide (n = 2)) 2 = true
    ∧ ∃ l1 l2, ([1, 2, 3] : List Nat) = l1 ++ 2 :: l2
        ∧ ∀ x ∈ l1, (fun n : Nat => decide (n = 2)) x = false :=
  (C2_locator_first_match (fun n : Nat => decide (n = 2)) [1, 2, 3]).1 2 (by decide)

/-- C3 counterexample: the claimed idempotence and the claimed agreement
of the leading-dot and subdomain forms both fail on the code:
`normalize_domain "publish.buffer.com" = ".buffer.com"` but normalizing
again gives `"buffer.com"`, and `".buffer.com"` itself normalizes to
`"buffer.com"`, not to the image of `"publish.buffer.com"`. -/
theorem C3_counterexample :
    normalize_domain (normalize_domain "publish.buffer.com")
        ≠ normalize_domain "publish.buffer.com"
    ∧ normalize_domain ".buffer.com" ≠ normalize_domain "publish.buffer.com" := by
  decide

/-- C3 amended: normalization is idempotent exactly on those domains
whose normalized form is already a fixed point — no leading dot and not
one of the two recognized subdomain spellings; and it is
`"www.buffer.com"`, not the leading-dot form, that normalizes to the
same canonical domain as `"publish.buffer.com"`. -/
theorem C3_amended_idempotence (d : String)
    (h1 : leadingDot (normalize_domain d) = false)
    (h2 : normalize_domain d ≠ "publish.buffer.com")
    (h3 : normalize_domain d ≠ "www.buffer.com") :
    normalize_domain (normalize_domain d) = normalize_domain d
    ∧ normalize_domain "www.buffer.com" = normalize_domain "publish.buffer.com" := by
  constructor
  · rw [normalize_domain, if_neg h2, if_neg (by simp [h1]), if_neg h3]
  · decide

theorem C3_amended_idempotence_witness :
    leadingDot (normalize_domain "buffer.com") = false
    ∧ (normalize_domain (normalize_domain "buffer.com") = normalize_domain "buffer.com"
       ∧ normalize_domain "www.buffer.com" = normalize_domain "publish.buffer.com") :=
  ⟨by decide, C3_amended_idempotence "buffer.com" (by decide) (by decide) (by decide)⟩

/-- C9: once the cookie file exists and the preliminary navigation and
unpickling succeed, every stored cookie is attempted individually; the
ones whose injection raises are skipped and counted, all others are
injected (in order, domain-normalized), and the restore reports success
regardless of how many were skipped. -/
theorem C9_cookie_restore_resilient (cookies : List Cookie) (addFails : Cookie → Bool) :
    load_cookies true true cookies addFails =
      (true,
       (cookies.filter fun c => addFails (normCookie c)).length,
       (cookies.filter fun c => addFails (normCookie c) = false).map normCookie) := by
  simp [load_cookies, cookieFold]

/-- C4: the credential-login path runs only when the initial probe
failed and the cookie-restore attempt failed (restore returned False, or
the re-probe after a successful restore failed); whenever login runs,
the probe and the cookie restore were both tried before it, and when the
initial probe succeeds or restored cookies validate, login never runs. -/
theorem C4_login_last_resort (e : SessEnv) :
    (SEv.login ∈ (establish_session e).1 →
      e.probe1 = false ∧ (e.loadOk = false ∨ e.probe2 = false)
      ∧ ((establish_session e).1 = [SEv.probe 0, SEv.loadCookies, SEv.login]
         ∨ (establish_session e).1
             = [SEv.probe 0, SEv.loadCookies, SEv.probe 1, SEv.login]))
    ∧ (e.probe1 = true → SEv.login ∉ (establish_session e).1)
    ∧ (e.loadOk = true → e.probe2 = true → SEv.login ∉ (establish_session e).1) := by
  rcases e with ⟨p1, lo, p2, hc, lg⟩
  cases p1 <;> cases lo <;> cases p2 <;> cases hc <;> cases lg <;> decide

theorem C4_login_last_resort_witness :
    (⟨false, true, false, true, true⟩ : SessEnv).probe1 = false
    ∧ ((⟨false, true, false, true, true⟩ : SessEnv).loadOk = false
       ∨ (⟨false, true, false, true, true⟩ : SessEnv).probe2 = false)
    ∧ ((establish_session ⟨false, true, false, true, true⟩).1
          = [SEv.probe 0, SEv.loadCookies, SEv.login]
       ∨ (establish_session ⟨false, true, false, true, true⟩).1
          = [SEv.probe 0, SEv.loadCookies, SEv.probe 1, SEv.login]) :=
  (C4_login_last_resort ⟨false, true, false, true, true⟩).1 (by decide)

/-! ## Evidence composition: C6 -/

/-- C6: on a non-empty list of equal-sized snapshots the composed image
is a 2-column grid of width `2 * w` and height `ceil(n / 2) * h`
(`(n + 1) / 2` in integer arithmetic), snapshot `i` pasted at column
`i % 2` and row `i / 2` in capture order; the empty list composes to
`none`. -/
theorem C6_compose_grid (imgs : List Img) (w h : Nat)
    (hne : imgs ≠ [])
    (hsz : ∀ im ∈ imgs, im.width = w ∧ im.height = h) :
    combine_screenshots (imgs.map some) =
      some { width := 2 * w
             height := ((imgs.length + 1) / 2) * h
             placements :=
               imgs.enum.map fun p => ((p.1 % 2) * w, (p.1 / 2) * h, p.2) }
    ∧ combine_screenshots [] = none := by
  refine ⟨?_, rfl⟩
  rcases imgs with _ | ⟨im0, rest⟩
  · exact absurd rfl hne
  · obtain ⟨hw, hh⟩ := hsz im0 (by simp)
    have hmap : ((im0 :: rest).map some).filterMap id = im0 :: rest := by
      simp [List.filterMap_map]
    rw [combine_screenshots, if_neg (by simp), hmap]
    simp only [List.length_cons]
    rw [hw, hh]
    have harith : rest.length + 1 + 2 - 1 = rest.length + 1 + 1 := by omega
    rw [harith]

def fourShots : List Img := [⟨10, 5⟩, ⟨10, 5⟩, ⟨10, 5⟩, ⟨10, 5⟩]

theorem C6_compose_grid_witness :
    fourShots ≠ []
    ∧ (∀ im ∈ fourShots, im.width = 10 ∧ im.height = 5)
    ∧ (combine_screenshots (fourShots.map some) =
        some { width := 2 * 10
               height := ((fourShots.length + 1) / 2) * 5
               placements :=
                 fourShots.enum.map fun p => ((p.1 % 2) * 10, (p.1 / 2) * 5, p.2) }
       ∧ combine_screenshots [] = none) :=
  ⟨by decide, by decide, C6_compose_grid fourShots 10 5 (by decide) (by decide)⟩

/-! ## Step-ladder lemmas for `process_media_file` -/

/-- The events a run of successful steps emits: the step itself, then the
screenshot request. -/
def stepEvents : List Nat → List REv
  | [] => []
  | j :: rest => REv.step j :: REv.shot j :: stepEvents rest

lemma stepsGo_ok_all (e : RunEnv) (l : List Nat) (h : ∀ i ∈ l, e.stepOk i = true) :
    stepsGo e l = (stepEvents l, some (l.filter fun i => e.shotOk i)) := by
  induction l with
  | nil => rfl
  | cons hd tl ih =>
    have hhd := h hd (by simp)
    have htl : ∀ i ∈ tl, e.stepOk i = true := fun i hi => h i (by simp [hi])
    by_cases hs : e.shotOk hd <;>
      simp [stepsGo, hhd, ih htl, stepEvents, List.filter_cons, hs]

lemma stepsGo_fail (e : RunEnv) (l1 : List Nat) (i : Nat) (l2 : List Nat)
    (h1 : ∀ j ∈ l1, e.stepOk j = true) (hfail : e.stepOk i = false) :
    stepsGo e (l1 ++ i :: l2) = (stepEvents l1 ++ [REv.step i, REv.failMsg i], none) := by
  induction l1 with
  | nil => simp [stepsGo, hfail, stepEvents]
  | cons hd tl ih =>
    have hhd := h1 hd (by simp)
    simp [stepsGo, hhd, ih (fun j hj => h1 j (by simp [hj])), stepEvents]

lemma stepsGo_some (e : RunEnv) (l : List Nat) (r : List Nat)
    (h : (stepsGo e l).2 = some r) :
    (∀ i ∈ l, e.stepOk i = true) ∧ r = l.filter fun i => e.shotOk i := by
  induction l generalizing r with
  | nil =>
    simp [stepsGo] at h
    simp [h]
  | cons hd tl ih =>
    by_cases hhd : e.stepOk hd
    · rw [stepsGo] at h
      simp only [hhd, if_true] at h
      rw [Option.map_eq_some'] at h
      obtain ⟨r', hr', hmap⟩ := h
      obtain ⟨hall, hfilt⟩ := ih r' hr'
      refine ⟨?_, ?_⟩
      · intro j hj
        rcases List.mem_cons.mp hj with rfl | hj
        · exact hhd
        · exact hall j hj
      · rw [← hmap, hfilt, List.filter_cons]
    · rw [stepsGo] at h
      simp [hhd] at h

lemma stepsGo_shape (e : RunEnv) (l : List Nat) (ev : REv)
    (h : ev ∈ (stepsGo e l).1) :
    (∃ i, ev = REv.step i) ∨ (∃ i, ev = REv.shot i) ∨ (∃ i, ev = REv.failMsg i) := by
  induction l with
  | nil => simp [stepsGo] at h
  | cons hd tl ih =>
    by_cases hs : e.stepOk hd
    · rw [stepsGo] at h
      simp only [hs, if_true, List.mem_cons] at h
      rcases h with rfl | rfl | h
      · exact Or.inl ⟨hd, rfl⟩
      · exact Or.inr (Or.inl ⟨hd, rfl⟩)
      · exact ih h
    · rw [stepsGo] at h
      simp only [hs, if_false, Bool.false_eq_true, List.mem_cons] at h
      rcases h with rfl | rfl | h
      · exact Or.inl ⟨hd, rfl⟩
      · exact Or.inr (Or.inr ⟨hd, rfl⟩)
      · simp at h

lemma step_mem_stepEvents (i : Nat) (l : List Nat) :
    REv.step i ∈ stepEvents l ↔ i ∈ l := by
  induction l with
  | nil => simp [stepEvents]
  | cons hd tl ih => simp [stepEvents, ih]

lemma shot_mem_stepEvents (i : Nat) (l : List Nat) :
    REv.shot i ∈ stepEvents l ↔ i ∈ l := by
  induction l with
  | nil => simp [stepEvents]
  | cons hd tl ih => simp [stepEvents, ih]

lemma establish_not_mem_stepsGo (e : RunEnv) (l : List Nat) (n : Nat) :
    REv.establish n ∉ (stepsGo e l).1 := by
  intro h
  rcases stepsGo_shape e l _ h with ⟨i, hi⟩ | ⟨i, hi⟩ | ⟨i, hi⟩ <;> exact REv.noConfusion hi

lemma cleanup_not_mem_stepsGo (e : RunEnv) (l : List Nat) :
    REv.cleanup ∉ (stepsGo e l).1 := by
  intro h
  rcases stepsGo_shape e l _ h with ⟨i, hi⟩ | ⟨i, hi⟩ | ⟨i, hi⟩ <;> exact REv.noConfusion hi

lemma stepsGo_head_step (e : RunEnv) (i : Nat) (rest : List Nat) :
    REv.step i ∈ (stepsGo e (i :: rest)).1 := by
  by_cases h : e.stepOk i <;> simp [stepsGo, h]

/-- When some `establish_session` call succeeds, the run is the
session-establishment prefix followed by the step ladder, and the
outcome of the ladder is the outcome of the run. -/
lemma process_of_est (e : RunEnv) (hest : e.est 0 = true ∨ e.est 1 = true) :
    ∃ pre, (process_media_file e).1 = pre ++ (stepsGo e workflowSteps).1
    ∧ (process_media_file e).2 = (stepsGo e workflowSteps).2
    ∧ ∀ x ∈ pre, x = REv.setup ∨ x = REv.establish 0 ∨ x = REv.cleanup
        ∨ x = REv.establish 1 := by
  by_cases h0 : e.est 0 = true
  · refine ⟨(if e.driverLive then [] else [REv.setup]) ++ [REv.establish 0], ?_, ?_, ?_⟩
    · simp [process_media_file, h0]
    · simp [process_media_file, h0]
    · intro x hx
      rcases List.mem_append.mp hx with hx | hx
      · split at hx <;> simp_all
      · simp at hx
        simp [hx]
  · have h1 : e.est 1 = true := hest.resolve_left h0
    refine ⟨(if e.driverLive then [] else [REv.setup])
        ++ [REv.establish 0, REv.cleanup, REv.setup, REv.establish 1], ?_, ?_, ?_⟩
    · simp [process_media_file, h0, h1]
    · simp [process_media_file, h0, h1]
    · intro x hx
      rcases List.mem_append.mp hx with hx | hx
      · split at hx <;> simp_all
      · simp at hx
        rcases hx with rfl | rfl | rfl | rfl <;> simp

/-! ## Claim theorems on the workflow run: C5, C8, C10 -/

/-- C5: when a step fails (returns the failure value `None`) after the
earlier steps succeeded, the run returns `None` at once with the
step-naming failure message emitted, no step after the failing one is
executed, and no snapshot beyond those of the earlier completed steps
is captured. -/
theorem C5_required_failure_aborts (e : RunEnv) (l1 l2 : List Nat) (i : Nat)
    (hsplit : workflowSteps = l1 ++ i :: l2)
    (hok : ∀ j ∈ l1, e.stepOk j = true)
    (hfail : e.stepOk i = false)
    (hest : e.est 0 = true ∨ e.est 1 = true) :
    (process_media_file e).2 = none
    ∧ REv.failMsg i ∈ (process_media_file e).1
    ∧ (∀ j ∈ l2, REv.step j ∉ (process_media_file e).1)
    ∧ (∀ j, REv.shot j ∈ (process_media_file e).1 → j ∈ l1) := by
  obtain ⟨pre, htr, hres, hpre⟩ := process_of_est e hest
  have hsg : stepsGo e workflowSteps
      = (stepEvents l1 ++ [REv.step i, REv.failMsg i], none) := by
    rw [hsplit]
    exact stepsGo_fail e l1 i l2 hok hfail
  have hnd : (l1 ++ i :: l2).Nodup := by
    rw [← hsplit]
    decide
  rw [List.nodup_append] at hnd
  obtain ⟨hnd1, hnd2, hdisj⟩ := hnd
  refine ⟨?_, ?_, ?_, ?_⟩
  · rw [hres, hsg]
  · rw [htr, hsg]
    simp
  · intro j hj hmem
    rw [htr, hsg] at hmem
    rcases List.mem_append.mp hmem with hmem | hmem
    · rcases hpre _ hmem with h' | h' | h' | h' <;> exact REv.noConfusion h'
    · rcases List.mem_append.mp hmem with hmem | hmem
      · exact hdisj ((step_mem_stepEvents j l1).mp hmem) (by simp [hj])
      · simp at hmem
        subst hmem
        exact (List.nodup_cons.mp hnd2).1 hj
  · intro j hmem
    rw [htr, hsg] at hmem
    rcases List.mem_append.mp hmem with hmem | hmem
    · rcases hpre _ hmem with h' | h' | h' | h' <;> exact REv.noConfusion h'
    · rcases List.mem_append.mp hmem with hmem | hmem
      · exact (shot_mem_stepEvents j l1).mp hmem
      · simp at hmem

def c5Env : RunEnv :=
  ⟨true, fun _ => true, fun i => decide (i < 2), fun _ => true⟩

theorem C5_required_failure_aborts_witness :
    (process_media_file c5Env).2 = none
    ∧ REv.failMsg 2 ∈ (process_media_file c5Env).1
    ∧ (∀ j ∈ [3, 4, 5, 6, 7, 8], REv.step j ∉ (process_media_file c5Env).1)
    ∧ (∀ j, REv.shot j ∈ (process_media_file c5Env).1 → j ∈ [0, 1]) :=
  C5_required_failure_aborts c5Env [0, 1] [3, 4, 5, 6, 7, 8] 2
    (by decide) (by decide) (by decide) (Or.inl (by decide))

/-- C8 counterexample: a run in which every step completes but the
snapshot after step 2 fails still reaches composition, with an evidence
list of 8 entries for 9 completed steps — not one snapshot per completed
step. -/
def c8Env : RunEnv :=
  ⟨true, fun _ => true, fun _ => true, fun i => decide (i ≠ 2)⟩

theorem C8_counterexample :
    (∀ i ∈ workflowSteps, REv.step i ∈ (process_media_file c8Env).1)
    ∧ (process_media_file c8Env).2 = some [0, 1, 3, 4, 5, 6, 7, 8]
    ∧ ([0, 1, 3, 4, 5, 6, 7, 8] : List Nat).length ≠ workflowSteps.length := by
  decide

/-- C8 amended: whenever the run reaches composition (returns an
evidence list), every step completed and the list holds exactly one
snapshot per completed step whose capture succeeded, in step order. -/
theorem C8_amended_evidence (e : RunEnv) (l : List Nat)
    (h : (process_media_file e).2 = some l) :
    l = workflowSteps.filter (fun i => e.shotOk i)
    ∧ ∀ i ∈ workflowSteps, REv.step i ∈ (process_media_file e).1 := by
  have hest : e.est 0 = true ∨ e.est 1 = true := by
    by_cases h0 : e.est 0 = true
    · exact Or.inl h0
    · by_cases h1 : e.est 1 = true
      · exact Or.inr h1
      · rw [process_media_file] at h
        simp [h0, h1] at h
  obtain ⟨pre, htr, hres, hpre⟩ := process_of_est e hest
  rw [hres] at h
  obtain ⟨hall, hfilt⟩ := stepsGo_some e workflowSteps l h
  refine ⟨hfilt, ?_⟩
  intro i hi
  rw [htr, stepsGo_ok_all e workflowSteps hall]
  simp [step_mem_stepEvents, hi]

theorem C8_amended_evidence_witness :
    [0, 1, 3, 4, 5, 6, 7, 8] = workflowSteps.filter (fun i => c8Env.shotOk i)
    ∧ ∀ i ∈ workflowSteps, REv.step i ∈ (process_media_file c8Env).1 :=
  C8_amended_evidence c8Env [0, 1, 3, 4, 5, 6, 7, 8] (by decide)

/-- C10: a failed first session establishment is followed by discarding
the driver, a fresh start, and exactly one retried establishment, all
before any step; a second failure returns `None` with no step executed;
there is never a third establishment attempt; a successful first
establishment skips the discard/retry; a successful retry lets the
workflow begin. -/
theorem C10_establish_retry (e : RunEnv) :
    (e.est 0 = false → e.est 1 = false →
      (process_media_file e).2 = none
      ∧ ∀ i, REv.step i ∉ (process_media_file e).1)
    ∧ (e.est 0 = false →
      ∃ t, (process_media_file e).1
        = (if e.driverLive then [] else [REv.setup])
          ++ [REv.establish 0, REv.cleanup, REv.setup, REv.establish 1] ++ t)
    ∧ (∀ n, REv.establish n ∈ (process_media_file e).1 → n ≤ 1)
    ∧ (e.est 0 = true →
      REv.cleanup ∉ (process_media_file e).1
      ∧ REv.establish 1 ∉ (process_media_file e).1)
    ∧ (e.est 0 = false → e.est 1 = true → REv.step 0 ∈ (process_media_file e).1) := by
  refine ⟨?_, ?_, ?_, ?_, ?_⟩
  · intro h0 h1
    refine ⟨by simp [process_media_file, h0, h1], ?_⟩
    intro i hmem
    simp [process_media_file, h0, h1] at hmem
  · intro h0
    by_cases h1 : e.est 1 = true
    · exact ⟨(stepsGo e workflowSteps).1, by simp [process_media_file, h0, h1]⟩
    · exact ⟨[], by simp [process_media_file, h0, h1]⟩
  · intro n hmem
    by_cases h0 : e.est 0 = true
    · simp [process_media_file, h0] at hmem
      rcases hmem with rfl | hmem
      · omega
      · exact absurd hmem (establish_not_mem_stepsGo e workflowSteps n)
    · by_cases h1 : e.est 1 = true
      · simp [process_media_file, h0, h1] at hmem
        rcases hmem with rfl | rfl | hmem
        · omega
        · omega
        · exact absurd hmem (establish_not_mem_stepsGo e workflowSteps n)
      · simp [process_media_file, h0, h1] at hmem
        rcases hmem with rfl | rfl <;> omega
  · intro h0
    constructor
    · intro hmem
      simp [process_media_file, h0] at hmem
      exact cleanup_not_mem_stepsGo e workflowSteps hmem
    · intro hmem
      simp [process_media_file, h0] at hmem
      exact establish_not_mem_stepsGo e workflowSteps 1 hmem
  · intro h0 h1
    simpa [process_media_file, h0, h1] using
      stepsGo_head_step e 0 [1, 2, 3, 4, 5, 6, 7, 8]

def c10Env : RunEnv :=
  ⟨true, fun _ => false, fun _ => true, fun _ => true⟩

theorem C10_establish_retry_witness :
    (process_media_file c10Env).2 = none
    ∧ ∀ i, REv.step i ∉ (process_media_file c10Env).1 :=
  (C10_establish_retry c10Env).1 (by decide) (by decide)

/-! ## Submission-controller lemmas -/

lemma mem_dismissPre (a : Nat) (ev : SubEv) (h : ev ∈ dismissPre a) :
    ev = SubEv.dismiss a := by
  rw [dismissPre] at h
  split at h <;> simp_all

lemma dismissPre_of_lt (a : Nat) (h : 1 < a) : dismissPre a = [SubEv.dismiss a] := by
  simp [dismissPre, h]

lemma submitGo_zero (e : SubmitEnv) (a : Nat) : submitGo e a 0 = ([], none) := rfl

lemma submitGo_succ (e : SubmitEnv) (a n : Nat) :
    submitGo e a (n + 1) =
      match findButton (e.pres a) (e.usable a) with
      | none =>
        if n = 0 then (dismissPre a, none)
        else (dismissPre a ++ (submitGo e (a + 1) n).1, (submitGo e (a + 1) n).2)
      | some _ =>
        match (tryMethodsGo e a clickMethods).2 with
        | some b => (dismissPre a ++ (tryMethodsGo e a clickMethods).1, some b)
        | none =>
          if n = 0 then (dismissPre a ++ (tryMethodsGo e a clickMethods).1, none)
          else (dismissPre a ++ (tryMethodsGo e a clickMethods).1 ++ [SubEv.dismiss a]
                  ++ (submitGo e (a + 1) n).1, (submitGo e (a + 1) n).2) := by
  rw [submitGo]

lemma submitGo_one_nofind (e : SubmitEnv) (a : Nat)
    (hfb : findButton (e.pres a) (e.usable a) = none) :
    submitGo e a 1 = (dismissPre a, none) := by
  rw [submitGo_succ, hfb]
  rfl

lemma submitGo_step_nofind (e : SubmitEnv) (a n : Nat) (hn : n ≠ 0)
    (hfb : findButton (e.pres a) (e.usable a) = none) :
    submitGo e a (n + 1)
      = (dismissPre a ++ (submitGo e (a + 1) n).1, (submitGo e (a + 1) n).2) := by
  rw [submitGo_succ, hfb]
  simp [hn]

lemma submitGo_found_ok (e : SubmitEnv) (a n : Nat) (s : Nat) (x : Bool)
    (hfb : findButton (e.pres a) (e.usable a) = some s)
    (hc : (tryMethodsGo e a clickMethods).2 = some x) :
    submitGo e a (n + 1)
      = (dismissPre a ++ (tryMethodsGo e a clickMethods).1, some x) := by
  rw [submitGo_succ, hfb, hc]

lemma submitGo_one_found_fail (e : SubmitEnv) (a : Nat) (s : Nat)
    (hfb : findButton (e.pres a) (e.usable a) = some s)
    (hc : (tryMethodsGo e a clickMethods).2 = none) :
    submitGo e a 1 = (dismissPre a ++ (tryMethodsGo e a clickMethods).1, none) := by
  rw [submitGo_succ, hfb, hc]
  rfl

lemma submitGo_step_found_fail (e : SubmitEnv) (a n : Nat) (s : Nat) (hn : n ≠ 0)
    (hfb : findButton (e.pres a) (e.usable a) = some s)
    (hc : (tryMethodsGo e a clickMethods).2 = none) :
    submitGo e a (n + 1)
      = (dismissPre a ++ (tryMethodsGo e a clickMethods).1 ++ [SubEv.dismiss a]
          ++ (submitGo e (a + 1) n).1, (submitGo e (a + 1) n).2) := by
  rw [submitGo_succ, hfb, hc]
  simp [hn]

lemma tryMethodsGo_attempt (e : SubmitEnv) (a : Nat) (ms : List Nat) (ev : SubEv)
    (h : ev ∈ (tryMethodsGo e a ms).1) : attemptOf ev = a := by
  induction ms with
  | nil => simp [tryMethodsGo] at h
  | cons m rest ih =>
    by_cases hr : e.raises a m
    · rw [tryMethodsGo] at h
      simp only [hr, if_true, List.mem_cons] at h
      rcases h with rfl | h
      · rfl
      · exact ih h
    · rw [tryMethodsGo] at h
      simp only [hr, Bool.false_eq_true, if_false, List.mem_cons] at h
      rcases h with rfl | h
      · rfl
      · simp at h
        rw [h]
        rfl

lemma tryMethodsGo_snd_true (e : SubmitEnv) (a : Nat) (ms : List Nat) (x : Bool)
    (h : (tryMethodsGo e a ms).2 = some x) : x = true := by
  induction ms with
  | nil => simp [tryMethodsGo] at h
  | cons m rest ih =>
    by_cases hr : e.raises a m
    · rw [tryMethodsGo] at h
      simp only [hr, if_true] at h
      exact ih h
    · rw [tryMethodsGo] at h
      simp only [hr, Bool.false_eq_true, if_false] at h
      exact (Option.some_inj.mp h).symm

lemma tryMethodsGo_snd_some (e : SubmitEnv) (a : Nat) (ms : List Nat) :
    (tryMethodsGo e a ms).2 = some true ↔ ∃ m ∈ ms, e.raises a m = false := by
  induction ms with
  | nil => simp [tryMethodsGo]
  | cons m rest ih =>
    by_cases hr : e.raises a m
    · rw [tryMethodsGo]
      simp [hr, ih]
    · rw [tryMethodsGo]
      simp [hr]

lemma tryMethodsGo_snd_none (e : SubmitEnv) (a : Nat) (ms : List Nat)
    (h : ∀ m ∈ ms, e.raises a m = true) : (tryMethodsGo e a ms).2 = none := by
  induction ms with
  | nil => rfl
  | cons m rest ih =>
    rw [tryMethodsGo]
    simp only [h m (by simp), if_true]
    exact ih fun m' hm' => h m' (by simp [hm'])

lemma tryMethodsGo_clicks_eq (e : SubmitEnv) (a : Nat) (ms : List Nat) :
    clicksOf a (tryMethodsGo e a ms).1 = methodTrials (e.raises a) ms := by
  induction ms with
  | nil => rfl
  | cons m rest ih =>
    by_cases hr : e.raises a m <;>
      simp [tryMethodsGo, methodTrials, hr, clicksOf] at ih ⊢ <;>
      exact ih

lemma tryMethodsGo_clicks_other (e : SubmitEnv) (a b : Nat) (ms : List Nat)
    (hne : a ≠ b) : clicksOf b (tryMethodsGo e a ms).1 = [] := by
  induction ms with
  | nil => rfl
  | cons m rest ih =>
    by_cases hr : e.raises a m <;>
      simp [tryMethodsGo, hr, clicksOf, hne] at ih ⊢ <;>
      exact ih

lemma tryMethodsGo_click_noraise (e : SubmitEnv) (a : Nat) (ms : List Nat) (m : Nat)
    (h : SubEv.click a m ∈ (tryMethodsGo e a ms).1) (hm : e.raises a m = false) :
    (tryMethodsGo e a ms).2 = some true := by
  induction ms with
  | nil => simp [tryMethodsGo] at h
  | cons m0 rest ih =>
    by_cases hr : e.raises a m0
    · rw [tryMethodsGo] at h ⊢
      simp only [hr, if_true, List.mem_cons] at h ⊢
      rcases h with heq | h
      · obtain rfl : m = m0 := by injection heq
        rw [hm] at hr
        simp at hr
      · exact ih h
    · rw [tryMethodsGo]
      simp [hr]

lemma clicksOf_append (b : Nat) (t1 t2 : List SubEv) :
    clicksOf b (t1 ++ t2) = clicksOf b t1 ++ clicksOf b t2 :=
  List.filterMap_append t1 t2 _

lemma clicksOf_dismissPre (b a : Nat) : clicksOf b (dismissPre a) = [] := by
  rw [dismissPre]
  split <;> rfl

lemma clicksOf_dismiss (b a : Nat) : clicksOf b [SubEv.dismiss a] = [] := rfl

lemma submitGo_attempt_bounds (e : SubmitEnv) :
    ∀ fuel a ev, ev ∈ (submitGo e a fuel).1 →
      a ≤ attemptOf ev ∧ attemptOf ev < a + fuel := by
  intro fuel
  induction fuel with
  | zero =>
    intro a ev h
    simp [submitGo_zero] at h
  | succ n ih =>
    intro a ev h
    rw [submitGo_succ] at h
    rcases hfb : findButton (e.pres a) (e.usable a) with _ | s <;> rw [hfb] at h
    · by_cases hn : n = 0
      · subst hn
        simp only [if_true] at h
        rw [mem_dismissPre a ev h]
        simp [attemptOf]
      · simp only [hn, if_false] at h
        rcases List.mem_append.mp h with h | h
        · rw [mem_dismissPre a ev h]
          simp [attemptOf]
        · obtain ⟨h1, h2⟩ := ih (a + 1) ev h
          omega
    · rcases hc : (tryMethodsGo e a clickMethods).2 with _ | b <;> rw [hc] at h
      · by_cases hn : n = 0
        · subst hn
          simp only [if_true] at h
          rcases List.mem_append.mp h with h | h
          · rw [mem_dismissPre a ev h]
            simp [attemptOf]
          · rw [tryMethodsGo_attempt e a clickMethods ev h]
            omega
        · simp only [hn, if_false] at h
          rcases List.mem_append.mp h with h | h
          · rcases List.mem_append.mp h with h | h
            · rcases List.mem_append.mp h with h | h
              · rw [mem_dismissPre a ev h]
                simp [attemptOf]
              · rw [tryMethodsGo_attempt e a clickMethods ev h]
                omega
            · simp at h
              rw [h]
              simp [attemptOf]
          · obtain ⟨h1, h2⟩ := ih (a + 1) ev h
            omega
      · rcases List.mem_append.mp h with h | h
        · rw [mem_dismissPre a ev h]
          simp [attemptOf]
        · rw [tryMethodsGo_attempt e a clickMethods ev h]
          omega

lemma clicksOf_submitGo_lt (e : SubmitEnv) (fuel a b : Nat) (hb : b < a) :
    clicksOf b (submitGo e a fuel).1 = [] := by
  rw [clicksOf, List.filterMap_eq_nil]
  intro ev hev
  obtain ⟨h1, _⟩ := submitGo_attempt_bounds e fuel a ev hev
  cases ev with
  | dismiss a' => rfl
  | confirm a' o => rfl
  | click a' m =>
    have haa : a ≤ a' := h1
    show (if a' = b then some m else none) = none
    rw [if_neg]
    omega

lemma submitGo_clicks (e : SubmitEnv) :
    ∀ fuel a b, clicksOf b (submitGo e a fuel).1 = []
      ∨ clicksOf b (submitGo e a fuel).1 = methodTrials (e.raises b) clickMethods := by
  intro fuel
  induction fuel with
  | zero =>
    intro a b
    left
    rfl
  | succ n ih =>
    intro a b
    rcases hfb : findButton (e.pres a) (e.usable a) with _ | s
    · by_cases hn : n = 0
      · subst hn
        rw [submitGo_succ]
        simp only [hfb, if_true]
        left
        exact clicksOf_dismissPre b a
      · rw [submitGo_succ]
        simp only [hfb, hn, if_false]
        rw [clicksOf_append, clicksOf_dismissPre]
        simpa using ih (a + 1) b
    · rcases hc : (tryMethodsGo e a clickMethods).2 with _ | x
      · by_cases hn : n = 0
        · subst hn
          rw [submitGo_succ]
          simp only [hfb, hc, if_true]
          rw [clicksOf_append, clicksOf_dismissPre]
          by_cases hab : a = b
          · subst hab
            right
            simpa using tryMethodsGo_clicks_eq e a clickMethods
          · left
            simpa using tryMethodsGo_clicks_other e a b clickMethods hab
        · rw [submitGo_succ]
          simp only [hfb, hc, hn, if_false]
          rw [clicksOf_append, clicksOf_append, clicksOf_append, clicksOf_dismissPre,
            clicksOf_dismiss]
          by_cases hab : a = b
          · subst hab
            rw [tryMethodsGo_clicks_eq, clicksOf_submitGo_lt e n (a + 1) a (by omega)]
            right
            simp
          · rw [tryMethodsGo_clicks_other e a b clickMethods hab]
            simpa using ih (a + 1) b
      · rw [submitGo_succ]
        simp only [hfb, hc]
        rw [clicksOf_append, clicksOf_dismissPre]
        by_cases hab : a = b
        · subst hab
          right
          simpa using tryMethodsGo_clicks_eq e a clickMethods
        · left
          simpa using tryMethodsGo_clicks_other e a b clickMethods hab

lemma submitGo_dismiss_first (e : SubmitEnv) :
    ∀ fuel a b, a ≤ b → 2 ≤ b →
      (∃ m, SubEv.click b m ∈ (submitGo e a fuel).1) →
      ∃ l1 l2, (submitGo e a fuel).1 = l1 ++ SubEv.dismiss b :: l2
        ∧ ∀ m, SubEv.click b m ∉ l1 := by
  intro fuel
  induction fuel with
  | zero =>
    intro a b hab h2 hex
    obtain ⟨m, hm⟩ := hex
    simp [submitGo_zero] at hm
  | succ n ih =>
    intro a b hab h2 hex
    obtain ⟨m, hm⟩ := hex
    by_cases hba : b = a
    · subst hba
      have hpre : dismissPre b = [SubEv.dismiss b] := dismissPre_of_lt b (by omega)
      rw [submitGo_succ]
      rcases hfb : findButton (e.pres b) (e.usable b) with _ | s
      · by_cases hn : n = 0
        · subst hn
          simp only [hfb, if_true]
          exact ⟨[], [], by simp [hpre], by simp⟩
        · simp only [hfb, hn, if_false]
          exact ⟨[], (submitGo e (b + 1) n).1, by simp [hpre], by simp⟩
      · rcases hc : (tryMethodsGo e b clickMethods).2 with _ | x
        · by_cases hn : n = 0
          · subst hn
            simp only [hfb, hc, if_true]
            exact ⟨[], (tryMethodsGo e b clickMethods).1, by simp [hpre], by simp⟩
          · simp only [hfb, hc, hn, if_false]
            exact ⟨[], (tryMethodsGo e b clickMethods).1 ++ [SubEv.dismiss b]
                ++ (submitGo e (b + 1) n).1, by simp [hpre], by simp⟩
        · simp only [hfb, hc]
          exact ⟨[], (tryMethodsGo e b clickMethods).1, by simp [hpre], by simp⟩
    · have hlt : a < b := lt_of_le_of_ne hab fun h => hba h.symm
      rcases hfb : findButton (e.pres a) (e.usable a) with _ | s
      · by_cases hn : n = 0
        · subst hn
          rw [submitGo_one_nofind e a hfb] at hm
          exact absurd (mem_dismissPre a _ hm) (by simp)
        · rw [submitGo_step_nofind e a n hn hfb] at hm ⊢
          rcases List.mem_append.mp hm with hm | hm
          · exact absurd (mem_dismissPre a _ hm) (by simp)
          · obtain ⟨l1, l2, heq, hnotin⟩ := ih (a + 1) b (by omega) h2 ⟨m, hm⟩
            refine ⟨dismissPre a ++ l1, l2, by rw [heq]; simp, ?_⟩
            intro m' hmem
            rcases List.mem_append.mp hmem with hmem | hmem
            · exact absurd (mem_dismissPre a _ hmem) (by simp)
            · exact hnotin m' hmem
      · rcases hc : (tryMethodsGo e a clickMethods).2 with _ | x
        · by_cases hn : n = 0
          · subst hn
            rw [submitGo_one_found_fail e a s hfb hc] at hm
            rcases List.mem_append.mp hm with hm | hm
            · exact absurd (mem_dismissPre a _ hm) (by simp)
            · have := tryMethodsGo_attempt e a clickMethods _ hm
              simp [attemptOf] at this
              omega
          · rw [submitGo_step_found_fail e a n s hn hfb hc] at hm ⊢
            rcases List.mem_append.mp hm with hm | hm
            · rcases List.mem_append.mp hm with hm | hm
              · rcases List.mem_append.mp hm with hm | hm
                · exact absurd (mem_dismissPre a _ hm) (by simp)
                · have := tryMethodsGo_attempt e a clickMethods _ hm
                  simp [attemptOf] at this
                  omega
              · simp at hm
            · obtain ⟨l1, l2, heq, hnotin⟩ := ih (a + 1) b (by omega) h2 ⟨m, hm⟩
              refine ⟨dismissPre a ++ (tryMethodsGo e a clickMethods).1
                  ++ [SubEv.dismiss a] ++ l1, l2, by rw [heq]; simp, ?_⟩
              intro m' hmem
              rcases List.mem_append.mp hmem with hmem | hmem
              · rcases List.mem_append.mp hmem with hmem | hmem
                · rcases List.mem_append.mp hmem with hmem | hmem
                  · exact absurd (mem_dismissPre a _ hmem) (by simp)
                  · have := tryMethodsGo_attempt e a clickMethods _ hmem
                    simp [attemptOf] at this
                    omega
                · simp at hmem
              · exact hnotin m' hmem
        · rw [submitGo_found_ok e a n s x hfb hc] at hm
          rcases List.mem_append.mp hm with hm | hm
          · exact absurd (mem_dismissPre a _ hm) (by simp)
          · have := tryMethodsGo_attempt e a clickMethods _ hm
            simp [attemptOf] at this
            omega

lemma submitGo_click_noraise (e : SubmitEnv) :
    ∀ fuel a b m, SubEv.click b m ∈ (submitGo e a fuel).1 →
      e.raises b m = false → (submitGo e a fuel).2 = some true := by
  intro fuel
  induction fuel with
  | zero =>
    intro a b m hm hr
    simp [submitGo_zero] at hm
  | succ n ih =>
    intro a b m hm hr
    rcases hfb : findButton (e.pres a) (e.usable a) with _ | s
    · by_cases hn : n = 0
      · subst hn
        rw [submitGo_one_nofind e a hfb] at hm
        exact absurd (mem_dismissPre a _ hm) (by simp)
      · rw [submitGo_step_nofind e a n hn hfb] at hm ⊢
        rcases List.mem_append.mp hm with hm | hm
        · exact absurd (mem_dismissPre a _ hm) (by simp)
        · exact ih (a + 1) b m hm hr
    · rcases hc : (tryMethodsGo e a clickMethods).2 with _ | x
      · by_cases hn : n = 0
        · subst hn
          rw [submitGo_one_found_fail e a s hfb hc] at hm
          rcases List.mem_append.mp hm with hm | hm
          · exact absurd (mem_dismissPre a _ hm) (by simp)
          · have hba := tryMethodsGo_attempt e a clickMethods _ hm
            simp [attemptOf] at hba
            subst hba
            rw [tryMethodsGo_click_noraise e b clickMethods m hm hr] at hc
            exact absurd hc (by simp)
        · rw [submitGo_step_found_fail e a n s hn hfb hc] at hm ⊢
          rcases List.mem_append.mp hm with hm | hm
          · rcases List.mem_append.mp hm with hm | hm
            · rcases List.mem_append.mp hm with hm | hm
              · exact absurd (mem_dismissPre a _ hm) (by simp)
              · have hba := tryMethodsGo_attempt e a clickMethods _ hm
                simp [attemptOf] at hba
                subst hba
                rw [tryMethodsGo_click_noraise e b clickMethods m hm hr] at hc
                exact absurd hc (by simp)
            · simp at hm
          · exact ih (a + 1) b m hm hr
      · rw [submitGo_found_ok e a n s x hfb hc]
        rw [tryMethodsGo_snd_true e a clickMethods x hc]

lemma submitGo_allraise (e : SubmitEnv) (hall : ∀ a m, e.raises a m = true) :
    ∀ fuel a, (submitGo e a fuel).2 = none := by
  intro fuel
  induction fuel with
  | zero =>
    intro a
    rfl
  | succ n ih =>
    intro a
    rw [submitGo_succ]
    have hc : (tryMethodsGo e a clickMethods).2 = none :=
      tryMethodsGo_snd_none e a clickMethods fun m _ => hall a m
    rcases hfb : findButton (e.pres a) (e.usable a) with _ | s
    · by_cases hn : n = 0
      · subst hn
        simp [hfb]
      · simp only [hfb, hn, if_false]
        exact ih (a + 1)
    · by_cases hn : n = 0
      · subst hn
        simp [hfb, hc]
      · simp only [hfb, hc, hn, if_false]
        exact ih (a + 1)

/-! ## Claim theorems on the submission controller: C1, C7 -/

/-- C1: a `submit_post` run performs at most 3 attempts (every event
carries an attempt number between 1 and 3); on every attempt after the
first, the overlay-dismissal pass precedes every click strategy of that
attempt; within an attempt the click strategies run in declared order
`0,1,2,3` and stop at the first that does not raise (`methodTrials`);
any non-raising strategy ends the run with the success value regardless
of whether the post-submission signal was confirmed; and when every
strategy raises on every attempt the run returns `None`. -/
theorem C1_submission_retry (e : SubmitEnv) :
    (∀ ev ∈ (submit_post e).1, 1 ≤ attemptOf ev ∧ attemptOf ev ≤ 3)
    ∧ (∀ b m, SubEv.click b m ∈ (submit_post e).1 → 2 ≤ b →
        ∃ l1 l2, (submit_post e).1 = l1 ++ SubEv.dismiss b :: l2
          ∧ ∀ m', SubEv.click b m' ∉ l1)
    ∧ (∀ b, clicksOf b (submit_post e).1 = []
        ∨ clicksOf b (submit_post e).1 = methodTrials (e.raises b) clickMethods)
    ∧ (∀ b m, SubEv.click b m ∈ (submit_post e).1 → e.raises b m = false →
        (submit_post e).2 = some true)
    ∧ ((∀ a m, e.raises a m = true) → (submit_post e).2 = none) := by
  refine ⟨?_, ?_, ?_, ?_, ?_⟩
  · intro ev h
    obtain ⟨h1, h2⟩ := submitGo_attempt_bounds e 3 1 ev h
    omega
  · intro b m hmem hb
    exact submitGo_dismiss_first e 3 1 b (by omega) hb ⟨m, hmem⟩
  · intro b
    exact submitGo_clicks e 3 1 b
  · intro b m hmem hm
    exact submitGo_click_noraise e 3 1 b m hmem hm
  · intro hall
    exact submitGo_allraise e hall 3 1

def c1Env : SubmitEnv :=
  ⟨fun _ _ => true, fun _ _ => true, fun _ _ => true, fun _ => false⟩

theorem C1_submission_retry_witness : (submit_post c1Env).2 = none :=
  (C1_submission_retry c1Env).2.2.2.2 fun a m => rfl

/-- C7: an indeterminate outcome is never fatal — `click_new_post`
returns `True` when the composer dialog cannot be confirmed,
`upload_video` returns `True` when neither upload-completion wait
confirms, and `submit_post` returns `True` after a non-raising click
even when the post-submission signal is never observed. -/
theorem C7_indeterminate_not_fatal :
    (∀ e : NewPostEnv, e.navOk = true → (∃ s ∈ newPostSelectors, e.sel s = true) →
      e.clickOk = true → e.dialogConfirmed = false → click_new_post e = some true)
    ∧ (∀ e : UploadEnv, e.tempOk = true → e.inputFound = true → e.sendOk = true →
      e.progressGone = false → e.previewFound = false → upload_video e = some true)
    ∧ (∀ e : SubmitEnv, (∀ a, e.confirmed a = false) →
      findButton (e.pres 1) (e.usable 1) ≠ none →
      (∃ m ∈ clickMethods, e.raises 1 m = false) →
      (submit_post e).2 = some true) := by
  refine ⟨?_, ?_, ?_⟩
  · intro e hnav hs hclick hdialog
    obtain ⟨s, hs1, hs2⟩ := hs
    have hr : resolveFirst e.sel newPostSelectors ≠ none := by
      rw [Ne, resolveFirst_none]
      intro hall
      rw [hall s hs1] at hs2
      exact Bool.noConfusion hs2
    rcases hres : resolveFirst e.sel newPostSelectors with _ | s'
    · exact absurd hres hr
    · simp [click_new_post, hnav, hres, hclick]
  · intro e h1 h2 h3 h4 h5
    simp [upload_video, h1, h2, h3]
  · intro e hconf hfb hm
    rcases hfb' : findButton (e.pres 1) (e.usable 1) with _ | s
    · exact absurd hfb' hfb
    · have h2 : (tryMethodsGo e 1 clickMethods).2 = some true :=
        (tryMethodsGo_snd_some e 1 clickMethods).mpr hm
      show (submitGo e 1 3).2 = some true
      rw [submitGo_succ]
      simp [hfb', h2, dismissPre]

def c7NewPost : NewPostEnv := ⟨true, fun _ => true, true, false⟩

def c7Upload : UploadEnv := ⟨true, true, true, false, false⟩

def c7Submit : SubmitEnv :=
  ⟨fun _ _ => true, fun _ _ => true, fun _ _ => false, fun _ => false⟩

theorem C7_indeterminate_not_fatal_witness :
    click_new_post c7NewPost = some true
    ∧ upload_video c7Upload = some true
    ∧ (submit_post c7Submit).2 = some true :=
  ⟨C7_indeterminate_not_fatal.1 c7NewPost rfl (by decide) rfl rfl,
   C7_indeterminate_not_fatal.2.1 c7Upload rfl rfl rfl rfl rfl,
   C7_indeterminate_not_fatal.2.2 c7Submit (fun a => rfl) (by decide) (by decide)⟩

end BufferOnefile
